import Mathlib

/-!
Shallow embedding of `mongodb-queue.js` (a lease-based message queue over
MongoDB `findOneAndUpdate`).

Modelling conventions:
* Timestamps are `Nat`.  The JS code stores ISO-8601 strings produced by
  `now()` / `nowPlusSecs(secs)`; lexicographic order on those strings agrees
  with chronological order, so `$lt`/`$gt` on them is `<`/`>` on `Nat`.
  Each API call receives the current clock value `n` as an argument
  (`now()` within one call is a single instant).
* Lease tokens (`id()`, 16 random bytes hex) are `String`s supplied by the
  caller of the model: `get` takes a stream `toks : Nat → String` of the
  tokens `id()` would generate, one per recursion depth.
* A MongoDB document of the queue collection is `Msg`; absent fields are
  `Option.none`.  `insertOne` assigns `_id := nextId` and increments it,
  which models ObjectId's monotone uniqueness.
* `findOneAndUpdate` with `sort: {_id: 1}` updates the matching document
  with the smallest `_id`; without a sort it updates the first matching
  document in natural order.  Both return the post-update document
  (`returnOriginal: false`).
* An update document that mixes update operators (`$inc`/`$set`) with a
  plain top-level field is rejected by the server ("Unknown modifier"),
  modelled as `QErr.badUpdate`.  `Queue.prototype.get` builds such a
  document when `opts.user` is supplied (`update.user = user` is outside
  `$set`).
-/

/-- JS `x || d` for numeric options: `0`/missing falls back to the default. -/
def orDefault (v d : Nat) : Nat := if v = 0 then d else v

mutual
/-- A message payload: either an opaque caller value (modelled as a string)
or a whole returned-message object (as passed to `deadQueue.add(msg, ...)`). -/
inductive Payload : Type where
  | str : String → Payload
  | ofMsg : RetMsg → Payload

/-- The message object handed to callers by `get`: `_id` renamed to `id`
(`msg.id = msg._id.toHexString(); delete msg._id`), with the fields the
`get` update just materialized (`ack`, `tries`, `firstClaimed`). -/
inductive RetMsg : Type where
  | mk : (id : Nat) → (payload : Payload) → (visible : Nat) → (ack : String) →
      (tries : Nat) → (firstClaimed : Nat) → (user : Option String) → RetMsg
end

def RetMsg.id : RetMsg → Nat
  | .mk i _ _ _ _ _ _ => i

def RetMsg.payload : RetMsg → Payload
  | .mk _ p _ _ _ _ _ => p

def RetMsg.visible : RetMsg → Nat
  | .mk _ _ v _ _ _ _ => v

def RetMsg.ack : RetMsg → String
  | .mk _ _ _ a _ _ _ => a

def RetMsg.tries : RetMsg → Nat
  | .mk _ _ _ _ t _ _ => t

def RetMsg.firstClaimed : RetMsg → Nat
  | .mk _ _ _ _ _ f _ => f

def RetMsg.user : RetMsg → Option String
  | .mk _ _ _ _ _ _ u => u

/-- A document of the queue collection.  Absent fields are `none`.
`insertOne` in `add` stores only `visible` and `payload`; `tries`,
`ack`, `firstClaimed`, `user` and `deleted` appear through updates. -/
structure Msg : Type where
  _id : Nat
  payload : Payload
  visible : Nat
  ack : Option String
  tries : Option Nat
  firstClaimed : Option Nat
  user : Option String
  deleted : Option Nat

/-- Effective value of the `tries` field: MongoDB `$inc` treats an absent
field as `0`. -/
def triesVal (m : Msg) : Nat := m.tries.getD 0

/-- The returned-message view of a post-`get`-update document. -/
def Msg.toRet (m : Msg) : RetMsg :=
  .mk m._id m.payload m.visible (m.ack.getD "") (m.tries.getD 0)
    (m.firstClaimed.getD 0) m.user

/-- Queue configuration, as set up by the `Queue` constructor. -/
structure Queue : Type where
  visibility : Nat
  delay : Nat
  hasDeadQueue : Bool
  maxRetries : Nat

/-- Mirrors `new Queue(client, name, opts)`:
`this.visibility = opts.visibility || 30`, `this.delay = opts.delay || 0`,
and when `opts.deadQueue` is given, `this.maxRetries = opts.maxRetries || 5`. -/
def Queue.init (optVisibility optDelay : Nat) (deadQueue : Bool)
    (optMaxRetries : Nat) : Queue :=
  { visibility := orDefault optVisibility 30
    delay := orDefault optDelay 0
    hasDeadQueue := deadQueue
    maxRetries := if deadQueue then orDefault optMaxRetries 5 else 0 }

/-- The state of one queue collection. -/
structure QueueState : Type where
  msgs : List Msg
  nextId : Nat

/-- Errors surfaced through a callback's `err` argument. -/
inductive QErr : Type where
  | badUpdate : QErr
  | unidentifiedAck : String → QErr
  | unidentifiedPing : String → QErr
deriving DecidableEq

/-- `Queue.prototype.add`: inserts
`{ visible: delay ? nowPlusSecs(delay) : now(), payload: payload }`
with `delay = opts.delay || self.delay`, returning the new id. -/
def Queue.add (q : Queue) (n : Nat) (optDelay : Nat) (payload : Payload)
    (st : QueueState) : Nat × QueueState :=
  let delay := orDefault optDelay q.delay
  let m : Msg :=
    { _id := st.nextId
      payload := payload
      visible := if delay ≠ 0 then n + delay else n
      ack := none
      tries := none
      firstClaimed := none
      user := none
      deleted := none }
  (st.nextId, { msgs := st.msgs ++ [m], nextId := st.nextId + 1 })

/-- The `get` query: `visible: { $lt: now() }, deleted: { $exists: false }`. -/
def getMatch (n : Nat) (m : Msg) : Bool :=
  decide (m.visible < n) && m.deleted.isNone

/-- The document with the smallest `_id` in a list (first one on ties). -/
def selMin : List Msg → Option Msg
  | [] => none
  | m :: rest =>
    match selMin rest with
    | none => some m
    | some b => if m._id ≤ b._id then some m else some b

/-- Replace the first document carrying `_id = i` (MongoDB `_id` is the
unique primary key, so this is the single matched document). -/
def updateById (i : Nat) (f : Msg → Msg) : List Msg → List Msg
  | [] => []
  | x :: rest => if x._id = i then f x :: rest else x :: updateById i f rest

/-- The `get` update:
`$inc: {tries: 1}`, `$set: {ack: id(), visible: nowPlusSecs(visibility), firstClaimed: now()}`.
Note `firstClaimed` is set unconditionally on every claim. -/
def getUpdate (n vis : Nat) (tok : String) (m : Msg) : Msg :=
  { m with
    tries := some (m.tries.getD 0 + 1)
    ack := some tok
    visible := n + vis
    firstClaimed := some n }

/-- The `ping`/`ack` query:
`ack: ack, visible: { $gt: now() }, deleted: { $exists: false }`. -/
def ackMatch (n : Nat) (tok : String) (m : Msg) : Bool :=
  (m.ack == some tok) && decide (n < m.visible) && m.deleted.isNone

/-- `Queue.prototype.ack`: `findOneAndUpdate` of the `ackMatch` query with
`$set: {deleted: now()}`, returning the id, or the
"Queue.ack(): Unidentified ack" error when nothing matches. -/
def Queue.ack (n : Nat) (tok : String) (st : QueueState) :
    Except QErr Nat × QueueState :=
  match st.msgs.find? (ackMatch n tok) with
  | none => (.error (.unidentifiedAck tok), st)
  | some m =>
    (.ok m._id,
      { st with msgs := updateById m._id (fun x => { x with deleted := some n }) st.msgs })

/-- `Queue.prototype.ping`: `findOneAndUpdate` of the `ackMatch` query with
`$set: {visible: nowPlusSecs(visibility)}` where
`visibility = opts.visibility || self.visibility`, returning the id, or the
"Queue.ping(): Unidentified ack" error when nothing matches. -/
def Queue.ping (q : Queue) (n : Nat) (tok : String) (optVisibility : Nat)
    (st : QueueState) : Except QErr Nat × QueueState :=
  let visibility := orDefault optVisibility q.visibility
  match st.msgs.find? (ackMatch n tok) with
  | none => (.error (.unidentifiedPing tok), st)
  | some m =>
    (.ok m._id,
      { st with msgs := updateById m._id (fun x => { x with visible := n + visibility }) st.msgs })

/-- `Queue.prototype.get`, fuelled.  `q` is this queue, `dq` the configuration
of `self.deadQueue`; `st`/`dqSt` their collections.  `toks i` is the token
`id()` generates at recursion depth `i`.  One invocation:
* `visibility = opts.visibility || self.visibility`;
* if `opts.user` is supplied the update document carries `user` as a plain
  top-level field next to `$inc`/`$set`, which the server rejects;
* otherwise `findOneAndUpdate` (sort `{_id: 1}`) claims the eligible
  document with the smallest `_id`;
* no match: callback with no message (empty result, not an error);
* with a dead queue, a claimed message whose post-increment `tries` exceeds
  `maxRetries` is added to the dead queue, acked here via the token just
  set, and `self.get(callback)` recurses (default opts);
* otherwise the post-update message is returned.
The recursion acks (hence permanently hides) one document per step, so fuel
`st.msgs.length + 1` (used by `Queue.get`) never runs out in real runs; the
fuel-0 branch returns the empty result. -/
def Queue.getAux (q dq : Queue) :
    Nat → Nat → (Nat → String) → Option String → Nat → QueueState → QueueState →
      Except QErr (Option RetMsg) × QueueState × QueueState
  | 0, _, _, _, _, st, dqSt => (.ok none, st, dqSt)
  | fuel + 1, n, toks, user, optVisibility, st, dqSt =>
    let visibility := orDefault optVisibility q.visibility
    if user.isSome then (.error .badUpdate, st, dqSt)
    else
      match selMin (st.msgs.filter (getMatch n)) with
      | none => (.ok none, st, dqSt)
      | some m0 =>
        let m := getUpdate n visibility (toks 0) m0
        let st' : QueueState :=
          { st with msgs := updateById m0._id (getUpdate n visibility (toks 0)) st.msgs }
        let ret := m.toRet
        if q.hasDeadQueue && decide (ret.tries > q.maxRetries) then
          let dqSt' := (dq.add n 0 (.ofMsg ret) dqSt).2
          match Queue.ack n ret.ack st' with
          | (.error e, st'') => (.error e, st'', dqSt')
          | (.ok _, st'') =>
            Queue.getAux q dq fuel n (fun i => toks (i + 1)) none 0 st'' dqSt'
        else (.ok (some ret), st', dqSt)

/-- `Queue.prototype.get` at the top level: enough fuel for every real run. -/
def Queue.get (q dq : Queue) (n : Nat) (toks : Nat → String)
    (user : Option String) (optVisibility : Nat) (st dqSt : QueueState) :
    Except QErr (Option RetMsg) × QueueState × QueueState :=
  Queue.getAux q dq (st.msgs.length + 1) n toks user optVisibility st dqSt

/-- The first document carrying a given `_id`, the way MongoDB resolves a
primary-key lookup. -/
def docById (i : Nat) (st : QueueState) : Option Msg :=
  st.msgs.find? (fun x => x._id == i)

@[simp]
theorem toRet_id (m : Msg) : m.toRet.id = m._id := rfl

@[simp]
theorem toRet_payload (m : Msg) : m.toRet.payload = m.payload := rfl

@[simp]
theorem toRet_visible (m : Msg) : m.toRet.visible = m.visible := rfl

@[simp]
theorem toRet_user (m : Msg) : m.toRet.user = m.user := rfl

@[simp]
theorem toRet_getUpdate_tries (n vis : Nat) (tok : String) (m : Msg) :
    ((getUpdate n vis tok m).toRet).tries = triesVal m + 1 := rfl

@[simp]
theorem toRet_getUpdate_ack (n vis : Nat) (tok : String) (m : Msg) :
    ((getUpdate n vis tok m).toRet).ack = tok := rfl

@[simp]
theorem toRet_getUpdate_visible (n vis : Nat) (tok : String) (m : Msg) :
    ((getUpdate n vis tok m).toRet).visible = n + vis := rfl

@[simp]
theorem toRet_getUpdate_firstClaimed (n vis : Nat) (tok : String) (m : Msg) :
    ((getUpdate n vis tok m).toRet).firstClaimed = n := rfl

@[simp]
theorem getUpdate_id (n vis : Nat) (tok : String) (m : Msg) :
    (getUpdate n vis tok m)._id = m._id := rfl

@[simp]
theorem getUpdate_payload (n vis : Nat) (tok : String) (m : Msg) :
    (getUpdate n vis tok m).payload = m.payload := rfl

@[simp]
theorem getUpdate_deleted (n vis : Nat) (tok : String) (m : Msg) :
    (getUpdate n vis tok m).deleted = m.deleted := rfl

theorem selMin_eq_none {l : List Msg} : selMin l = none ↔ l = [] := by
  cases l with
  | nil => simp [selMin]
  | cons x rest =>
    simp only [selMin]
    cases h : selMin rest with
    | none => simp
    | some b =>
      by_cases hle : x._id ≤ b._id <;> simp [hle]

theorem selMin_mem : ∀ {l : List Msg} {m : Msg}, selMin l = some m → m ∈ l := by
  intro l
  induction l with
  | nil => intro m h; simp [selMin] at h
  | cons x rest ih =>
    intro m h
    simp only [selMin] at h
    cases hr : selMin rest with
    | none =>
      rw [hr] at h
      simp at h
      simp [h]
    | some b =>
      rw [hr] at h
      by_cases hle : x._id ≤ b._id
      · simp [hle] at h
        simp [h]
      · simp [hle] at h
        subst h
        exact List.mem_cons_of_mem _ (ih hr)

theorem selMin_le : ∀ {l : List Msg} {m : Msg}, selMin l = some m →
    ∀ x ∈ l, m._id ≤ x._id := by
  intro l
  induction l with
  | nil => intro m h; simp [selMin] at h
  | cons x rest ih =>
    intro m h
    simp only [selMin] at h
    cases hr : selMin rest with
    | none =>
      rw [hr] at h
      simp at h
      subst h
      have : rest = [] := selMin_eq_none.mp hr
      subst this
      intro y hy
      simp at hy
      simp [hy]
    | some b =>
      rw [hr] at h
      by_cases hle : x._id ≤ b._id
      · simp [hle] at h
        subst h
        intro y hy
        rcases List.mem_cons.mp hy with hy | hy
        · simp [hy]
        · exact le_trans hle (ih hr y hy)
      · simp [hle] at h
        subst h
        intro y hy
        rcases List.mem_cons.mp hy with hy | hy
        · subst hy
          exact le_of_not_le hle
        · exact ih hr y hy

theorem updateById_of_forall_ne {i : Nat} {f : Msg → Msg} :
    ∀ {l : List Msg}, (∀ x ∈ l, x._id ≠ i) → updateById i f l = l := by
  intro l
  induction l with
  | nil => intro _; rfl
  | cons x rest ih =>
    intro h
    have hx : x._id ≠ i := h x (List.mem_cons_self x rest)
    simp only [updateById, if_neg hx]
    rw [ih (fun y hy => h y (List.mem_cons_of_mem x hy))]

theorem find?_updateById {i : Nat} {f : Msg → Msg} {p : Msg → Bool} :
    ∀ {l : List Msg} {m0 : Msg}, (l.map Msg._id).Nodup → m0 ∈ l → m0._id = i →
    p (f m0) = true → (∀ x ∈ l, x._id ≠ i → p x = false) →
    (updateById i f l).find? p = some (f m0) := by
  intro l
  induction l with
  | nil => intro m0 _ hm; cases hm
  | cons x rest ih =>
    intro m0 hnod hm hi hpf hother
    simp only [List.map_cons, List.nodup_cons] at hnod
    by_cases hx : x._id = i
    · have hm0x : m0 = x := by
        rcases List.mem_cons.mp hm with h | h
        · exact h
        · exfalso
          apply hnod.1
          rw [hx, ← hi]
          exact List.mem_map_of_mem Msg._id h
      subst hm0x
      simp only [updateById, if_pos hx]
      exact List.find?_cons_of_pos _ hpf
    · have hm0 : m0 ∈ rest := by
        rcases List.mem_cons.mp hm with h | h
        · exfalso; apply hx; rw [← h]; exact hi
        · exact h
      have hpx : p x = false := hother x (List.mem_cons_self x rest) hx
      simp only [updateById, if_neg hx]
      rw [List.find?_cons_of_neg _ (by simp [hpx])]
      exact ih hnod.2 hm0 hi hpf
        (fun y hy => hother y (List.mem_cons_of_mem x hy))

theorem updateById_updateById (i : Nat) (f g : Msg → Msg)
    (hf : ∀ x, (f x)._id = x._id) :
    ∀ l : List Msg, updateById i g (updateById i f l) =
      updateById i (fun x => g (f x)) l := by
  intro l
  induction l with
  | nil => rfl
  | cons x rest ih =>
    by_cases hx : x._id = i
    · simp [updateById, hx, hf x]
    · simp [updateById, hx, ih]

theorem map_tries_updateById {i : Nat} {f : Msg → Msg}
    (hf : ∀ x, (f x).tries = x.tries) :
    ∀ l : List Msg, (updateById i f l).map Msg.tries = l.map Msg.tries := by
  intro l
  induction l with
  | nil => rfl
  | cons x rest ih =>
    by_cases hx : x._id = i
    · simp [updateById, hx, hf x]
    · simp [updateById, hx, ih]

theorem forall₂_triesVal_updateById {i : Nat} {f : Msg → Msg}
    (hf : ∀ x, triesVal x ≤ triesVal (f x)) :
    ∀ l : List Msg,
      List.Forall₂ (· ≤ ·) (l.map triesVal) ((updateById i f l).map triesVal) := by
  intro l
  induction l with
  | nil => simp [updateById]
  | cons x rest ih =>
    by_cases hx : x._id = i
    · simp only [updateById, if_pos hx, List.map_cons]
      exact List.Forall₂.cons (hf x) (List.forall₂_same.mpr (fun y _ => le_refl _))
    · simp only [updateById, if_neg hx, List.map_cons]
      exact List.Forall₂.cons (le_refl _) ih

theorem ack_of_find_none {n : Nat} {tok : String} {st : QueueState}
    (h : st.msgs.find? (ackMatch n tok) = none) :
    Queue.ack n tok st = (.error (.unidentifiedAck tok), st) := by
  simp [Queue.ack, h]

theorem ack_of_find_some {n : Nat} {tok : String} {st : QueueState} {m : Msg}
    (h : st.msgs.find? (ackMatch n tok) = some m) :
    Queue.ack n tok st =
      (.ok m._id,
        { st with msgs := updateById m._id (fun x => { x with deleted := some n }) st.msgs }) := by
  simp [Queue.ack, h]

theorem ping_of_find_none {q : Queue} {n : Nat} {tok : String}
    {optVisibility : Nat} {st : QueueState}
    (h : st.msgs.find? (ackMatch n tok) = none) :
    Queue.ping q n tok optVisibility st = (.error (.unidentifiedPing tok), st) := by
  simp [Queue.ping, h]

theorem ping_of_find_some {q : Queue} {n : Nat} {tok : String}
    {optVisibility : Nat} {st : QueueState} {m : Msg}
    (h : st.msgs.find? (ackMatch n tok) = some m) :
    Queue.ping q n tok optVisibility st =
      (.ok m._id,
        { st with msgs := (updateById m._id
            (fun x => { x with visible := n + orDefault optVisibility q.visibility }) st.msgs) }) := by
  simp [Queue.ping, h]

theorem getAux_user {q dq : Queue} {fuel n : Nat} {toks : Nat → String}
    {u : String} {optVisibility : Nat} {st dqSt : QueueState} :
    Queue.getAux q dq (fuel + 1) n toks (some u) optVisibility st dqSt =
      (.error .badUpdate, st, dqSt) := by
  simp [Queue.getAux]

theorem getAux_noMatch {q dq : Queue} {fuel n : Nat} {toks : Nat → String}
    {optVisibility : Nat} {st dqSt : QueueState}
    (h : selMin (st.msgs.filter (getMatch n)) = none) :
    Queue.getAux q dq (fuel + 1) n toks none optVisibility st dqSt =
      (.ok none, st, dqSt) := by
  simp [Queue.getAux, h]

theorem getAux_deliver {q dq : Queue} {fuel n : Nat} {toks : Nat → String}
    {optVisibility : Nat} {st dqSt : QueueState} {m0 : Msg}
    (hsel : selMin (st.msgs.filter (getMatch n)) = some m0)
    (hnd : (q.hasDeadQueue && decide (q.maxRetries < triesVal m0 + 1)) = false) :
    Queue.getAux q dq (fuel + 1) n toks none optVisibility st dqSt =
      (.ok (some ((getUpdate n (orDefault optVisibility q.visibility) (toks 0) m0).toRet)),
        { st with msgs := (updateById m0._id
            (getUpdate n (orDefault optVisibility q.visibility) (toks 0)) st.msgs) },
        dqSt) := by
  simp only [Queue.getAux, toRet_getUpdate_tries]
  rw [hsel]
  simp [hnd]

theorem getAux_dead_step {q dq : Queue} {fuel n : Nat} {toks : Nat → String}
    {optVisibility : Nat} {st dqSt : QueueState} {m0 : Msg} {a : Nat}
    {st2 : QueueState}
    (hsel : selMin (st.msgs.filter (getMatch n)) = some m0)
    (hdead : q.hasDeadQueue = true)
    (htr : q.maxRetries < triesVal m0 + 1)
    (hack : Queue.ack n (toks 0)
        { st with msgs := (updateById m0._id
            (getUpdate n (orDefault optVisibility q.visibility) (toks 0)) st.msgs) } =
      (.ok a, st2)) :
    Queue.getAux q dq (fuel + 1) n toks none optVisibility st dqSt =
      Queue.getAux q dq fuel n (fun i => toks (i + 1)) none 0 st2
        (dq.add n 0
          (.ofMsg ((getUpdate n (orDefault optVisibility q.visibility) (toks 0) m0).toRet))
          dqSt).2 := by
  simp only [Queue.getAux, toRet_getUpdate_tries, toRet_getUpdate_ack]
  rw [hsel]
  simp [hdead, htr, hack]

/-- With a dead queue configured, `get` never hands the caller a message whose
post-increment `tries` exceeds `maxRetries`: such messages are diverted. -/
theorem getAux_tries_le {q dq : Queue} (hdead : q.hasDeadQueue = true) :
    ∀ (fuel n : Nat) (toks : Nat → String) (user : Option String)
      (optVisibility : Nat) (st dqSt : QueueState) (ret : RetMsg)
      (st2 dq2 : QueueState),
      Queue.getAux q dq fuel n toks user optVisibility st dqSt =
        (.ok (some ret), st2, dq2) →
      ret.tries ≤ q.maxRetries := by
  intro fuel
  induction fuel with
  | zero =>
    intro n toks user optVisibility st dqSt ret st2 dq2 h
    simp [Queue.getAux] at h
  | succ fuel ih =>
    intro n toks user optVisibility st dqSt ret st2 dq2 h
    cases user with
    | some u => rw [getAux_user] at h; simp at h
    | none =>
      cases hsel : selMin (st.msgs.filter (getMatch n)) with
      | none => rw [getAux_noMatch hsel] at h; simp at h
      | some m0 =>
        by_cases htr : q.maxRetries < triesVal m0 + 1
        · rcases hack : Queue.ack n (toks 0)
              { st with msgs := (updateById m0._id
                  (getUpdate n (orDefault optVisibility q.visibility) (toks 0)) st.msgs) }
            with ⟨r, stx⟩
          cases r with
          | ok a =>
            rw [getAux_dead_step hsel hdead htr hack] at h
            exact ih n (fun i => toks (i + 1)) none 0 stx _ ret st2 dq2 h
          | error e =>
            simp only [Queue.getAux, toRet_getUpdate_tries, toRet_getUpdate_ack] at h
            rw [hsel] at h
            simp [hdead, htr, hack] at h
        · have hnd : (q.hasDeadQueue && decide (q.maxRetries < triesVal m0 + 1)) = false := by
            simp [htr]
          rw [getAux_deliver hsel hnd] at h
          simp only [Prod.mk.injEq] at h
          have hret : ret.tries = triesVal m0 + 1 := by
            have := h.1
            simp at this
            rw [← this]
            simp
          omega

theorem ackMatch_ack {n : Nat} {tok : String} {m : Msg}
    (h : ackMatch n tok m = true) : m.ack = some tok := by
  simp [ackMatch] at h
  exact h.1.1

theorem ackMatch_visible {n : Nat} {tok : String} {m : Msg}
    (h : ackMatch n tok m = true) : n < m.visible := by
  simp [ackMatch] at h
  exact h.1.2

theorem ackMatch_deleted {n : Nat} {tok : String} {m : Msg}
    (h : ackMatch n tok m = true) : m.deleted = none := by
  simp [ackMatch] at h
  exact h.2

theorem getMatch_visible {n : Nat} {m : Msg} (h : getMatch n m = true) :
    m.visible < n := by
  simp [getMatch] at h
  exact h.1

theorem getMatch_deleted {n : Nat} {m : Msg} (h : getMatch n m = true) :
    m.deleted = none := by
  simp [getMatch] at h
  exact h.2

theorem mem_updateById_strong {i : Nat} {f : Msg → Msg} :
    ∀ {l : List Msg} {y : Msg}, (l.map Msg._id).Nodup → y ∈ updateById i f l →
      (y ∈ l ∧ y._id ≠ i) ∨ ∃ x ∈ l, x._id = i ∧ y = f x := by
  intro l
  induction l with
  | nil => intro y _ hy; simp [updateById] at hy
  | cons x rest ih =>
    intro y hnod hy
    simp only [List.map_cons, List.nodup_cons] at hnod
    by_cases hx : x._id = i
    · simp only [updateById, if_pos hx] at hy
      rcases List.mem_cons.mp hy with hy | hy
      · exact Or.inr ⟨x, List.mem_cons_self x rest, hx, hy⟩
      · refine Or.inl ⟨List.mem_cons_of_mem x hy, ?_⟩
        intro hc
        apply hnod.1
        rw [hx, ← hc]
        exact List.mem_map_of_mem Msg._id hy
    · simp only [updateById, if_neg hx] at hy
      rcases List.mem_cons.mp hy with hy | hy
      · subst hy
        exact Or.inl ⟨List.mem_cons_self y rest, hx⟩
      · rcases ih hnod.2 hy with ⟨h1, h2⟩ | ⟨z, hz, hzi, hzf⟩
        · exact Or.inl ⟨List.mem_cons_of_mem x h1, h2⟩
        · exact Or.inr ⟨z, List.mem_cons_of_mem x hz, hzi, hzf⟩

theorem map_proj_updateById {α : Type} (g : Msg → α) {i : Nat} {f : Msg → Msg}
    (hf : ∀ x, g (f x) = g x) :
    ∀ l : List Msg, (updateById i f l).map g = l.map g := by
  intro l
  induction l with
  | nil => rfl
  | cons x rest ih =>
    by_cases hx : x._id = i
    · simp [updateById, hx, hf x]
    · simp [updateById, hx, ih]

theorem forall₂_le_trans :
    ∀ {l1 l2 l3 : List Nat}, List.Forall₂ (· ≤ ·) l1 l2 →
      List.Forall₂ (· ≤ ·) l2 l3 → List.Forall₂ (· ≤ ·) l1 l3 := by
  intro l1 l2 l3 h12
  induction h12 generalizing l3 with
  | nil =>
    intro h23
    cases h23
    exact List.Forall₂.nil
  | cons hab h ih =>
    intro h23
    cases h23 with
    | cons hbc h' => exact List.Forall₂.cons (le_trans hab hbc) (ih h')

theorem sum_triesVal_updateById {i : Nat} {f : Msg → Msg}
    (hf : ∀ x, triesVal (f x) = triesVal x + 1) :
    ∀ l : List Msg, (∃ x ∈ l, x._id = i) →
      ((updateById i f l).map triesVal).sum = (l.map triesVal).sum + 1 := by
  intro l
  induction l with
  | nil => intro h; simp at h
  | cons x rest ih =>
    intro hex
    by_cases hx : x._id = i
    · simp only [updateById, if_pos hx, List.map_cons, List.sum_cons, hf x]
      omega
    · have hex' : ∃ y ∈ rest, y._id = i := by
        rcases hex with ⟨y, hy, hyi⟩
        rcases List.mem_cons.mp hy with hy | hy
        · exact absurd (hy ▸ hyi) hx
        · exact ⟨y, hy, hyi⟩
      simp only [updateById, if_neg hx, List.map_cons, List.sum_cons, ih hex']
      omega

/-- C3: an `ack` call with lease token `tok` succeeds — returning the message
identifier and setting `deleted = now` on that document — if and only if some
message currently holds the token with `deleted` absent and `visible` still
in the future; otherwise it fails with the unidentified-ack error.  With
lease tokens unique across documents (the sparse unique index on `ack`),
acknowledging twice with the same token makes the first call succeed and any
second call fail with the unidentified-ack error. -/
theorem ack_claim_spec (n : Nat) (tok : String) (st : QueueState)
    (hnod : (st.msgs.map Msg._id).Nodup)
    (huniq : ∀ x ∈ st.msgs, ∀ y ∈ st.msgs,
      x.ack = some tok → y.ack = some tok → x._id = y._id) :
    ((∃ m ∈ st.msgs, ackMatch n tok m = true) ↔
      ∃ i st2, Queue.ack n tok st = (.ok i, st2)) ∧
    ((∀ m ∈ st.msgs, ackMatch n tok m = false) →
      Queue.ack n tok st = (.error (.unidentifiedAck tok), st)) ∧
    (∀ m0, st.msgs.find? (ackMatch n tok) = some m0 →
      Queue.ack n tok st =
        (.ok m0._id,
          { st with msgs := (updateById m0._id
              (fun x => { x with deleted := some n }) st.msgs) }) ∧
      docById m0._id
          { st with msgs := (updateById m0._id
              (fun x => { x with deleted := some n }) st.msgs) } =
        some { m0 with deleted := some n } ∧
      (∀ n2, (Queue.ack n2 tok
          { st with msgs := (updateById m0._id
              (fun x => { x with deleted := some n }) st.msgs) }).1 =
        .error (.unidentifiedAck tok))) := by
  refine ⟨⟨?_, ?_⟩, ?_, ?_⟩
  · rintro ⟨m, hm, hmatch⟩
    cases hf : st.msgs.find? (ackMatch n tok) with
    | none =>
      exact absurd hmatch (by simpa using List.find?_eq_none.mp hf m hm)
    | some m0 =>
      exact ⟨m0._id, _, ack_of_find_some hf⟩
  · rintro ⟨i, st2, h⟩
    cases hf : st.msgs.find? (ackMatch n tok) with
    | none =>
      rw [ack_of_find_none hf] at h
      simp at h
    | some m0 =>
      exact ⟨m0, List.mem_of_find?_eq_some hf, List.find?_some hf⟩
  · intro hall
    refine ack_of_find_none (List.find?_eq_none.mpr ?_)
    intro x hx
    simp [hall x hx]
  · intro m0 hf
    have hm0mem : m0 ∈ st.msgs := List.mem_of_find?_eq_some hf
    have hm0p : ackMatch n tok m0 = true := List.find?_some hf
    refine ⟨ack_of_find_some hf, ?_, ?_⟩
    · unfold docById
      exact find?_updateById hnod hm0mem rfl (by simp)
        (fun x _ hne => by simp [hne])
    · intro n2
    
      have hnone : (updateById m0._id (fun x => { x with deleted := some n })
          st.msgs).find? (ackMatch n2 tok) = none := by
        apply List.find?_eq_none.mpr
        intro y hy
        rcases mem_updateById_strong hnod hy with ⟨hyl, hyne⟩ | ⟨x, _, _, hyf⟩
        · have hyack : y.ack ≠ some tok := fun hc =>
            hyne (huniq y hyl m0 hm0mem hc (ackMatch_ack hm0p))
          simp [ackMatch, hyack]
        · subst hyf
          simp [ackMatch]
      rw [ack_of_find_none hnone]

/-- A one-message state carrying an unexpired lease with token "tk". -/
def stC3 : QueueState :=
  { msgs := [⟨0, .str "p", 20, some "tk", some 1, some 3, none, none⟩]
    nextId := 1 }

/-- Witness for C3: the concrete leased state, acknowledged at time 10. -/
theorem ack_claim_spec_witness :
    ((stC3.msgs.map Msg._id).Nodup ∧
      (∀ x ∈ stC3.msgs, ∀ y ∈ stC3.msgs,
        x.ack = some "tk" → y.ack = some "tk" → x._id = y._id)) ∧
    (((∃ m ∈ stC3.msgs, ackMatch 10 "tk" m = true) ↔
        ∃ i st2, Queue.ack 10 "tk" stC3 = (.ok i, st2)) ∧
      ((∀ m ∈ stC3.msgs, ackMatch 10 "tk" m = false) →
        Queue.ack 10 "tk" stC3 = (.error (.unidentifiedAck "tk"), stC3)) ∧
      (∀ m0, stC3.msgs.find? (ackMatch 10 "tk") = some m0 →
        Queue.ack 10 "tk" stC3 =
          (.ok m0._id,
            { stC3 with msgs := (updateById m0._id
                (fun x => { x with deleted := some 10 }) stC3.msgs) }) ∧
        docById m0._id
            { stC3 with msgs := (updateById m0._id
                (fun x => { x with deleted := some 10 }) stC3.msgs) } =
          some { m0 with deleted := some 10 } ∧
        (∀ n2, (Queue.ack n2 "tk"
            { stC3 with msgs := (updateById m0._id
                (fun x => { x with deleted := some 10 }) stC3.msgs) }).1 =
          .error (.unidentifiedAck "tk")))) :=
  ⟨⟨by decide, by decide⟩, ack_claim_spec 10 "tk" stC3 (by decide) (by decide)⟩

/-- C7: a `ping` (renew) call with lease token `tok` fails with the
unidentified-ack error precisely when no non-finalized message holds the
token with `visible` still in the future; on success it returns the message
identifier, pushes that document's `visible` to `now + visibility`, and
leaves every document's `tries` and `ack` (lease token) unchanged. -/
theorem ping_claim_spec (q : Queue) (n : Nat) (tok : String)
    (optVisibility : Nat) (st : QueueState)
    (hnod : (st.msgs.map Msg._id).Nodup) :
    ((∀ m ∈ st.msgs, ackMatch n tok m = false) →
      Queue.ping q n tok optVisibility st = (.error (.unidentifiedPing tok), st)) ∧
    ((∃ m ∈ st.msgs, ackMatch n tok m = true) ↔
      ∃ i st2, Queue.ping q n tok optVisibility st = (.ok i, st2)) ∧
    (∀ m0, st.msgs.find? (ackMatch n tok) = some m0 →
      Queue.ping q n tok optVisibility st =
        (.ok m0._id,
          { st with msgs := (updateById m0._id
              (fun x => { x with visible := n + orDefault optVisibility q.visibility })
              st.msgs) }) ∧
      docById m0._id
          { st with msgs := (updateById m0._id
              (fun x => { x with visible := n + orDefault optVisibility q.visibility })
              st.msgs) } =
        some { m0 with visible := n + orDefault optVisibility q.visibility } ∧
      (updateById m0._id
          (fun x => { x with visible := n + orDefault optVisibility q.visibility })
          st.msgs).map Msg.tries = st.msgs.map Msg.tries ∧
      (updateById m0._id
          (fun x => { x with visible := n + orDefault optVisibility q.visibility })
          st.msgs).map Msg.ack = st.msgs.map Msg.ack) := by
  refine ⟨?_, ⟨?_, ?_⟩, ?_⟩
  · intro hall
    refine ping_of_find_none (List.find?_eq_none.mpr ?_)
    intro x hx
    simp [hall x hx]
  · rintro ⟨m, hm, hmatch⟩
    cases hf : st.msgs.find? (ackMatch n tok) with
    | none =>
      exact absurd hmatch (by simpa using List.find?_eq_none.mp hf m hm)
    | some m0 =>
      exact ⟨m0._id, _, ping_of_find_some hf⟩
  · rintro ⟨i, st2, h⟩
    cases hf : st.msgs.find? (ackMatch n tok) with
    | none =>
      rw [ping_of_find_none hf] at h
      simp at h
    | some m0 =>
      exact ⟨m0, List.mem_of_find?_eq_some hf, List.find?_some hf⟩
  · intro m0 hf
    have hm0mem : m0 ∈ st.msgs := List.mem_of_find?_eq_some hf
    refine ⟨ping_of_find_some hf, ?_, ?_, ?_⟩
    · unfold docById
      exact find?_updateById hnod hm0mem rfl (by simp)
        (fun x _ hne => by simp [hne])
    · exact @map_proj_updateById _ Msg.tries m0._id
        (fun x => { x with visible := n + orDefault optVisibility q.visibility })
        (fun x => rfl) st.msgs
    · exact @map_proj_updateById _ Msg.ack m0._id
        (fun x => { x with visible := n + orDefault optVisibility q.visibility })
        (fun x => rfl) st.msgs

/-- A queue with all-default configuration (visibility 30, no dead queue). -/
def qPlain : Queue := Queue.init 0 0 false 0

/-- Witness for C7: the concrete leased state of `stC3`, renewed at time 10
with the default visibility window of 30. -/
theorem ping_claim_spec_witness :
    ((stC3.msgs.map Msg._id).Nodup) ∧
    (((∀ m ∈ stC3.msgs, ackMatch 10 "tk" m = false) →
        Queue.ping qPlain 10 "tk" 0 stC3 =
          (.error (.unidentifiedPing "tk"), stC3)) ∧
      ((∃ m ∈ stC3.msgs, ackMatch 10 "tk" m = true) ↔
        ∃ i st2, Queue.ping qPlain 10 "tk" 0 stC3 = (.ok i, st2)) ∧
      (∀ m0, stC3.msgs.find? (ackMatch 10 "tk") = some m0 →
        Queue.ping qPlain 10 "tk" 0 stC3 =
          (.ok m0._id,
            { stC3 with msgs := (updateById m0._id
                (fun x => { x with visible := 10 + orDefault 0 qPlain.visibility })
                stC3.msgs) }) ∧
        docById m0._id
            { stC3 with msgs := (updateById m0._id
                (fun x => { x with visible := 10 + orDefault 0 qPlain.visibility })
                stC3.msgs) } =
          some { m0 with visible := 10 + orDefault 0 qPlain.visibility } ∧
        (updateById m0._id
            (fun x => { x with visible := 10 + orDefault 0 qPlain.visibility })
            stC3.msgs).map Msg.tries = stC3.msgs.map Msg.tries ∧
        (updateById m0._id
            (fun x => { x with visible := 10 + orDefault 0 qPlain.visibility })
            stC3.msgs).map Msg.ack = stC3.msgs.map Msg.ack)) :=
  ⟨by decide, ping_claim_spec qPlain 10 "tk" 0 stC3 (by decide)⟩

/-- The empty collection. -/
def stEmpty : QueueState := { msgs := [], nextId := 0 }

/-- C1: a claim (`get`) on a queue without a dead queue atomically selects
the eligible message (`visible < now`, `deleted` absent) with the smallest
identifier, sets the supplied fresh lease token, sets
`visible = now + visibility`, increments `tries`, and returns the
post-mutation message with the token attached; when no message is eligible
it returns the empty result (`ok none`), not an error. -/
theorem get_claim_spec (q dq : Queue) (n : Nat) (toks : Nat → String)
    (optVisibility : Nat) (st dqSt : QueueState)
    (hdq : q.hasDeadQueue = false)
    (hnod : (st.msgs.map Msg._id).Nodup) :
    ((∀ m ∈ st.msgs, getMatch n m = false) →
      Queue.get q dq n toks none optVisibility st dqSt = (.ok none, st, dqSt)) ∧
    (∀ m0, selMin (st.msgs.filter (getMatch n)) = some m0 →
      (m0 ∈ st.msgs ∧ m0.visible < n ∧ m0.deleted = none ∧
        (∀ x ∈ st.msgs, getMatch n x = true → m0._id ≤ x._id)) ∧
      Queue.get q dq n toks none optVisibility st dqSt =
        (.ok (some ((getUpdate n (orDefault optVisibility q.visibility) (toks 0) m0).toRet)),
          { st with msgs := (updateById m0._id
              (getUpdate n (orDefault optVisibility q.visibility) (toks 0)) st.msgs) },
          dqSt) ∧
      docById m0._id
          { st with msgs := (updateById m0._id
              (getUpdate n (orDefault optVisibility q.visibility) (toks 0)) st.msgs) } =
        some (getUpdate n (orDefault optVisibility q.visibility) (toks 0) m0) ∧
      ((getUpdate n (orDefault optVisibility q.visibility) (toks 0) m0).toRet).ack = toks 0 ∧
      ((getUpdate n (orDefault optVisibility q.visibility) (toks 0) m0).toRet).visible =
        n + orDefault optVisibility q.visibility ∧
      ((getUpdate n (orDefault optVisibility q.visibility) (toks 0) m0).toRet).tries =
        triesVal m0 + 1) := by
  constructor
  · intro hall
    have hfil : st.msgs.filter (getMatch n) = [] := by
      apply List.filter_eq_nil_iff.mpr
      intro a ha
      simp [hall a ha]
    have hsel : selMin (st.msgs.filter (getMatch n)) = none := by
      rw [hfil]; rfl
    unfold Queue.get
    exact getAux_noMatch hsel
  · intro m0 hsel
    have hm0f : m0 ∈ st.msgs.filter (getMatch n) := selMin_mem hsel
    have hm0mem : m0 ∈ st.msgs := (List.mem_filter.mp hm0f).1
    have hm0match : getMatch n m0 = true := (List.mem_filter.mp hm0f).2
    have hnd : (q.hasDeadQueue && decide (q.maxRetries < triesVal m0 + 1)) = false := by
      simp [hdq]
    refine ⟨⟨hm0mem, getMatch_visible hm0match, getMatch_deleted hm0match, ?_⟩, ?_, ?_, rfl, rfl, rfl⟩
    · intro x hx hxm
      exact selMin_le hsel x (List.mem_filter.mpr ⟨hx, hxm⟩)
    · unfold Queue.get
      exact getAux_deliver hsel hnd
    · unfold docById
      exact find?_updateById hnod hm0mem rfl (by simp)
        (fun x _ hne => by simp [hne])

/-- A two-message backlog, both eligible at time 10, ids out of list order. -/
def stC1 : QueueState :=
  { msgs := [⟨5, .str "b", 0, none, none, none, none, none⟩,
             ⟨2, .str "a", 3, none, none, none, none, none⟩]
    nextId := 6 }

/-- Witness for C1: claiming from the concrete backlog at time 10 picks the
message with the smaller id (2), not the one listed first. -/
theorem get_claim_spec_witness :
    (qPlain.hasDeadQueue = false ∧ (stC1.msgs.map Msg._id).Nodup) ∧
    (((∀ m ∈ stC1.msgs, getMatch 10 m = false) →
        Queue.get qPlain qPlain 10 (fun _ => "w1") none 0 stC1 stEmpty =
          (.ok none, stC1, stEmpty)) ∧
      (∀ m0, selMin (stC1.msgs.filter (getMatch 10)) = some m0 →
        (m0 ∈ stC1.msgs ∧ m0.visible < 10 ∧ m0.deleted = none ∧
          (∀ x ∈ stC1.msgs, getMatch 10 x = true → m0._id ≤ x._id)) ∧
        Queue.get qPlain qPlain 10 (fun _ => "w1") none 0 stC1 stEmpty =
          (.ok (some ((getUpdate 10 (orDefault 0 qPlain.visibility) "w1" m0).toRet)),
            { stC1 with msgs := (updateById m0._id
                (getUpdate 10 (orDefault 0 qPlain.visibility) "w1") stC1.msgs) },
            stEmpty) ∧
        docById m0._id
            { stC1 with msgs := (updateById m0._id
                (getUpdate 10 (orDefault 0 qPlain.visibility) "w1") stC1.msgs) } =
          some (getUpdate 10 (orDefault 0 qPlain.visibility) "w1" m0) ∧
        ((getUpdate 10 (orDefault 0 qPlain.visibility) "w1" m0).toRet).ack = "w1" ∧
        ((getUpdate 10 (orDefault 0 qPlain.visibility) "w1" m0).toRet).visible =
          10 + orDefault 0 qPlain.visibility ∧
        ((getUpdate 10 (orDefault 0 qPlain.visibility) "w1" m0).toRet).tries =
          triesVal m0 + 1)) :=
  ⟨⟨by decide, by decide⟩,
    get_claim_spec qPlain qPlain 10 (fun _ => "w1") 0 stC1 stEmpty (by decide) (by decide)⟩

/-- C5: a leased message whose `visible` has elapsed (neither acked nor
renewed), with `deleted` absent, re-matches the claim predicate — which
checks only `visible < now` and `deleted` absence, ignoring the stale
`ack` lease token — so when it is the minimal eligible message, a claim
returns it again with `tries` incremented and a new lease token. -/
theorem expired_lease_reclaim (q dq : Queue) (n : Nat) (toks : Nat → String)
    (optVisibility : Nat) (st dqSt : QueueState) (m0 : Msg) (oldTok : String)
    (hdq : q.hasDeadQueue = false)
    (hlease : m0.ack = some oldTok)
    (hdel : m0.deleted = none)
    (hexp : m0.visible < n)
    (hsel : selMin (st.msgs.filter (getMatch n)) = some m0) :
    getMatch n m0 = true ∧
    Queue.get q dq n toks none optVisibility st dqSt =
      (.ok (some ((getUpdate n (orDefault optVisibility q.visibility) (toks 0) m0).toRet)),
        { st with msgs := (updateById m0._id
            (getUpdate n (orDefault optVisibility q.visibility) (toks 0)) st.msgs) },
        dqSt) ∧
    ((getUpdate n (orDefault optVisibility q.visibility) (toks 0) m0).toRet).id = m0._id ∧
    ((getUpdate n (orDefault optVisibility q.visibility) (toks 0) m0).toRet).tries =
      triesVal m0 + 1 ∧
    ((getUpdate n (orDefault optVisibility q.visibility) (toks 0) m0).toRet).ack = toks 0 := by
  have hmatch : getMatch n m0 = true := by
    simp [getMatch, hexp, hdel]
  have hnd : (q.hasDeadQueue && decide (q.maxRetries < triesVal m0 + 1)) = false := by
    simp [hdq]
  refine ⟨hmatch, ?_, rfl, rfl, rfl⟩
  unfold Queue.get
  exact getAux_deliver hsel hnd

/-- A message whose lease (token "old") expired at time 5. -/
def mC5 : Msg := ⟨0, .str "p", 5, some "old", some 2, some 1, none, none⟩

/-- The one-message state holding `mC5`. -/
def stC5 : QueueState := { msgs := [mC5], nextId := 1 }

/-- Witness for C5: re-claiming the expired-lease message at time 10. -/
theorem expired_lease_reclaim_witness :
    (qPlain.hasDeadQueue = false ∧ mC5.ack = some "old" ∧ mC5.deleted = none ∧
      mC5.visible < 10 ∧ selMin (stC5.msgs.filter (getMatch 10)) = some mC5) ∧
    (getMatch 10 mC5 = true ∧
      Queue.get qPlain qPlain 10 (fun _ => "w5") none 0 stC5 stEmpty =
        (.ok (some ((getUpdate 10 (orDefault 0 qPlain.visibility) "w5" mC5).toRet)),
          { stC5 with msgs := (updateById mC5._id
              (getUpdate 10 (orDefault 0 qPlain.visibility) "w5") stC5.msgs) },
          stEmpty) ∧
      ((getUpdate 10 (orDefault 0 qPlain.visibility) "w5" mC5).toRet).id = mC5._id ∧
      ((getUpdate 10 (orDefault 0 qPlain.visibility) "w5" mC5).toRet).tries =
        triesVal mC5 + 1 ∧
      ((getUpdate 10 (orDefault 0 qPlain.visibility) "w5" mC5).toRet).ack = "w5") :=
  ⟨⟨by decide, rfl, rfl, by decide, rfl⟩,
    expired_lease_reclaim qPlain qPlain 10 (fun _ => "w5") 0 stC5 stEmpty mC5 "old"
      (by decide) rfl rfl (by decide) rfl⟩

/-- C6 counterexample: the claim asserts a claim must succeed once the clock
is greater than or equal to `visible_at`.  A message enqueued at time 100
with delay 7 gets `visible = 107`, yet a claim at clock exactly 107 returns
the empty result: the predicate demands `visible < now` strictly. -/
theorem delay_boundary_counterexample :
    ((qPlain.add 100 7 (.str "p") stEmpty).2.msgs.map Msg.visible = [107]) ∧
    (Queue.get qPlain qPlain 107 (fun _ => "t") none 0
        (qPlain.add 100 7 (.str "p") stEmpty).2 stEmpty).1 = .ok none := by
  constructor <;> rfl

/-- C6 amended: a message enqueued with delay D is ineligible for claim
while the clock is at or before `enqueue_time + D` (so also at exactly D
elapsed), and a claim returns it as soon as the clock strictly exceeds its
`visible_at`. -/
theorem delay_claim_amended (q dq : Queue) (t0 D n : Nat) (p : Payload)
    (toks : Nat → String) (optVisibility : Nat) (dqSt : QueueState)
    (hdq : q.hasDeadQueue = false) :
    (n ≤ t0 + orDefault D q.delay →
      Queue.get q dq n toks none optVisibility (q.add t0 D p stEmpty).2 dqSt =
        (.ok none, (q.add t0 D p stEmpty).2, dqSt)) ∧
    (t0 + orDefault D q.delay < n →
      ∃ ret, (Queue.get q dq n toks none optVisibility (q.add t0 D p stEmpty).2 dqSt).1 =
        .ok (some ret) ∧ ret.id = 0 ∧ ret.payload = p ∧ ret.tries = 1) := by
  have hmsgs : (q.add t0 D p stEmpty).2.msgs =
      [⟨0, p, t0 + orDefault D q.delay, none, none, none, none, none⟩] := by
    simp [Queue.add, stEmpty]
  constructor
  · intro hn
    have hfil : ((q.add t0 D p stEmpty).2.msgs).filter (getMatch n) = [] := by
      apply List.filter_eq_nil_iff.mpr
      intro a ha
      rw [hmsgs] at ha
      simp at ha
      subst ha
      simp [getMatch]
      omega
    have hsel : selMin (((q.add t0 D p stEmpty).2.msgs).filter (getMatch n)) = none := by
      rw [hfil]; rfl
    unfold Queue.get
    exact getAux_noMatch hsel
  · intro hn
    have hm : getMatch n (⟨0, p, t0 + orDefault D q.delay, none, none, none, none, none⟩ : Msg) = true := by
      simp [getMatch]
      omega
    have hfil : ((q.add t0 D p stEmpty).2.msgs).filter (getMatch n) =
        [⟨0, p, t0 + orDefault D q.delay, none, none, none, none, none⟩] := by
      rw [hmsgs]
      simp [List.filter, hm]
    have hsel : selMin (((q.add t0 D p stEmpty).2.msgs).filter (getMatch n)) =
        some ⟨0, p, t0 + orDefault D q.delay, none, none, none, none, none⟩ := by
      rw [hfil]; rfl
    have hnd : (q.hasDeadQueue &&
        decide (q.maxRetries < triesVal (⟨0, p, t0 + orDefault D q.delay, none, none, none, none, none⟩ : Msg) + 1)) = false := by
      simp [hdq]
    refine ⟨(getUpdate n (orDefault optVisibility q.visibility) (toks 0)
        (⟨0, p, t0 + orDefault D q.delay, none, none, none, none, none⟩ : Msg)).toRet, ?_, rfl, rfl, rfl⟩
    unfold Queue.get
    rw [getAux_deliver hsel hnd]

/-- Witness for the amended C6: enqueue at 100 with delay 7, claim at 108. -/
theorem delay_claim_amended_witness :
    (qPlain.hasDeadQueue = false) ∧
    ((108 ≤ 100 + orDefault 7 qPlain.delay →
        Queue.get qPlain qPlain 108 (fun _ => "t") none 0
          (qPlain.add 100 7 (.str "p") stEmpty).2 stEmpty =
          (.ok none, (qPlain.add 100 7 (.str "p") stEmpty).2, stEmpty)) ∧
      (100 + orDefault 7 qPlain.delay < 108 →
        ∃ ret, (Queue.get qPlain qPlain 108 (fun _ => "t") none 0
            (qPlain.add 100 7 (.str "p") stEmpty).2 stEmpty).1 =
          .ok (some ret) ∧ ret.id = 0 ∧ ret.payload = .str "p" ∧ ret.tries = 1)) :=
  ⟨by decide,
    delay_claim_amended qPlain qPlain 100 7 108 (.str "p") (fun _ => "t") 0 stEmpty (by decide)⟩

/-- C8 (code bug): `Queue.prototype.get` places a supplied `opts.user` as a
plain top-level field of the update document, next to `$inc`/`$set`
(`update.user = user` instead of `update.$set.user = user`).  The store
rejects such a mixed update document, so every claim that supplies a
claimant identity fails with an error, the collection is left unchanged, and
no claimant is ever recorded on any message. -/
theorem get_user_rejected (q dq : Queue) (n : Nat) (toks : Nat → String)
    (u : String) (optVisibility : Nat) (st dqSt : QueueState) :
    Queue.get q dq n toks (some u) optVisibility st dqSt =
      (.error .badUpdate, st, dqSt) := by
  unfold Queue.get
  exact getAux_user

/-- A message whose first claim happened at time 5 (lease since expired). -/
def mC4 : Msg := ⟨0, .str "p", 0, some "t0", some 1, some 5, none, none⟩

/-- The one-message state holding `mC4`. -/
def stC4 : QueueState := { msgs := [mC4], nextId := 1 }

/-- C4 (code bug): the `get` update sets `firstClaimed: now()` on every
claim, unconditionally.  Claiming `mC4` — whose `firstClaimed` is 5 from its
first claim — again at time 10 overwrites the stored `firstClaimed` to 10
(and reports 10 to the caller), so `firstClaimed` is not write-once. -/
theorem firstClaimed_overwritten :
    mC4.firstClaimed = some 5 ∧
    docById 0 (Queue.get qPlain qPlain 10 (fun _ => "t1") none 0 stC4 stEmpty).2.1 =
      some ⟨0, .str "p", 40, some "t1", some 2, some 10, none, none⟩ ∧
    (Queue.get qPlain qPlain 10 (fun _ => "t1") none 0 stC4 stEmpty).1 =
      .ok (some (.mk 0 (.str "p") 40 "t1" 2 10 none)) :=
  ⟨rfl, rfl, rfl⟩

theorem ack_map_tries (n : Nat) (tok : String) (st : QueueState) :
    ((Queue.ack n tok st).2).msgs.map Msg.tries = st.msgs.map Msg.tries := by
  cases hf : st.msgs.find? (ackMatch n tok) with
  | none => rw [ack_of_find_none hf]
  | some m =>
    rw [ack_of_find_some hf]
    exact @map_proj_updateById _ Msg.tries m._id
      (fun x => { x with deleted := some n }) (fun x => rfl) st.msgs

theorem ping_map_tries (q : Queue) (n : Nat) (tok : String)
    (optVisibility : Nat) (st : QueueState) :
    ((Queue.ping q n tok optVisibility st).2).msgs.map Msg.tries =
      st.msgs.map Msg.tries := by
  cases hf : st.msgs.find? (ackMatch n tok) with
  | none => rw [ping_of_find_none hf]
  | some m =>
    rw [ping_of_find_some hf]
    exact @map_proj_updateById _ Msg.tries m._id
      (fun x => { x with visible := n + orDefault optVisibility q.visibility })
      (fun x => rfl) st.msgs

theorem map_triesVal_congr {l1 l2 : List Msg}
    (h : l1.map Msg.tries = l2.map Msg.tries) :
    l1.map triesVal = l2.map triesVal := by
  have h1 : l1.map triesVal = (l1.map Msg.tries).map (fun o => o.getD 0) := by
    rw [List.map_map]; rfl
  have h2 : l2.map triesVal = (l2.map Msg.tries).map (fun o => o.getD 0) := by
    rw [List.map_map]; rfl
  rw [h1, h2, h]

/-- No operation inside a `get` call ever decreases any document's effective
`tries` counter (pointwise over the collection). -/
theorem getAux_tries_mono (q dq : Queue) :
    ∀ (fuel n : Nat) (toks : Nat → String) (user : Option String)
      (optVisibility : Nat) (st dqSt : QueueState),
      List.Forall₂ (· ≤ ·) (st.msgs.map triesVal)
        (((Queue.getAux q dq fuel n toks user optVisibility st dqSt).2.1).msgs.map triesVal) := by
  intro fuel
  induction fuel with
  | zero =>
    intro n toks user optVisibility st dqSt
    exact List.forall₂_same.mpr (fun y _ => le_refl _)
  | succ fuel ih =>
    intro n toks user optVisibility st dqSt
    have hrefl : List.Forall₂ (· ≤ ·) (st.msgs.map triesVal) (st.msgs.map triesVal) :=
      List.forall₂_same.mpr (fun y _ => le_refl _)
    cases user with
    | some u =>
      rw [getAux_user]
      exact hrefl
    | none =>
      cases hsel : selMin (st.msgs.filter (getMatch n)) with
      | none =>
        rw [getAux_noMatch hsel]
        exact hrefl
      | some m0 =>
        have hstep : List.Forall₂ (· ≤ ·) (st.msgs.map triesVal)
            ((updateById m0._id
              (getUpdate n (orDefault optVisibility q.visibility) (toks 0))
              st.msgs).map triesVal) :=
          @forall₂_triesVal_updateById m0._id
            (getUpdate n (orDefault optVisibility q.visibility) (toks 0))
            (fun x => Nat.le_succ _) st.msgs
        by_cases htr : q.maxRetries < triesVal m0 + 1
        · by_cases hdead : q.hasDeadQueue = true
          · rcases hack : Queue.ack n (toks 0)
                { st with msgs := (updateById m0._id
                    (getUpdate n (orDefault optVisibility q.visibility) (toks 0)) st.msgs) }
              with ⟨r, stx⟩
            have hstx : stx.msgs.map triesVal =
                (updateById m0._id
                  (getUpdate n (orDefault optVisibility q.visibility) (toks 0))
                  st.msgs).map triesVal := by
              have htr2 := ack_map_tries n (toks 0)
                { st with msgs := (updateById m0._id
                    (getUpdate n (orDefault optVisibility q.visibility) (toks 0)) st.msgs) }
              rw [hack] at htr2
              exact map_triesVal_congr htr2
            have hmid : List.Forall₂ (· ≤ ·) (st.msgs.map triesVal)
                (stx.msgs.map triesVal) := by
              rw [hstx]
              exact hstep
            cases r with
            | ok a =>
              rw [getAux_dead_step hsel hdead htr hack]
              exact forall₂_le_trans hmid
                (ih n (fun i => toks (i + 1)) none 0 stx _)
            | error e =>
              have heq : Queue.getAux q dq (fuel + 1) n toks none optVisibility st dqSt =
                  (.error e, stx,
                    (dq.add n 0
                      (.ofMsg ((getUpdate n (orDefault optVisibility q.visibility) (toks 0) m0).toRet))
                      dqSt).2) := by
                simp only [Queue.getAux, toRet_getUpdate_tries, toRet_getUpdate_ack]
                rw [hsel]
                simp [hdead, htr, hack]
              rw [heq]
              exact hmid
          · have hdead' : q.hasDeadQueue = false := by
              revert hdead
              cases q.hasDeadQueue <;> simp
            have hnd : (q.hasDeadQueue &&
                decide (q.maxRetries < triesVal m0 + 1)) = false := by
              simp [hdead']
            rw [getAux_deliver hsel hnd]
            exact hstep
        · have hnd : (q.hasDeadQueue &&
              decide (q.maxRetries < triesVal m0 + 1)) = false := by
            simp [htr]
          rw [getAux_deliver hsel hnd]
          exact hstep

/-- Core of the dead-letter branch: with a fresh token, positive visibility
and unique ids, the internal `ack` by the just-set token succeeds on the
just-claimed document, and the claim recurses on the finalized state with
the wrapped message enqueued in the dead queue. -/
theorem dead_step_core (q dq : Queue) (fuel n : Nat) (toks : Nat → String)
    (optVisibility : Nat) (st dqSt : QueueState) (m0 : Msg)
    (hdead : q.hasDeadQueue = true)
    (hsel : selMin (st.msgs.filter (getMatch n)) = some m0)
    (htr : q.maxRetries < triesVal m0 + 1)
    (hnod : (st.msgs.map Msg._id).Nodup)
    (hfresh : ∀ x ∈ st.msgs, x.ack ≠ some (toks 0))
    (hvis : 0 < orDefault optVisibility q.visibility) :
    Queue.ack n (toks 0)
        { st with msgs := (updateById m0._id
            (getUpdate n (orDefault optVisibility q.visibility) (toks 0)) st.msgs) } =
      (.ok m0._id,
        { st with msgs := (updateById m0._id
            (fun x => { getUpdate n (orDefault optVisibility q.visibility) (toks 0) x with
              deleted := some n }) st.msgs) }) ∧
    Queue.getAux q dq (fuel + 1) n toks none optVisibility st dqSt =
      Queue.getAux q dq fuel n (fun i => toks (i + 1)) none 0
        { st with msgs := (updateById m0._id
            (fun x => { getUpdate n (orDefault optVisibility q.visibility) (toks 0) x with
              deleted := some n }) st.msgs) }
        (dq.add n 0
          (.ofMsg ((getUpdate n (orDefault optVisibility q.visibility) (toks 0) m0).toRet))
          dqSt).2 := by
  have hm0f : m0 ∈ st.msgs.filter (getMatch n) := selMin_mem hsel
  have hm0mem : m0 ∈ st.msgs := (List.mem_filter.mp hm0f).1
  have hm0match : getMatch n m0 = true := (List.mem_filter.mp hm0f).2
  have hfind : (updateById m0._id
      (getUpdate n (orDefault optVisibility q.visibility) (toks 0))
      st.msgs).find? (ackMatch n (toks 0)) =
      some (getUpdate n (orDefault optVisibility q.visibility) (toks 0) m0) := by
    apply find?_updateById hnod hm0mem rfl
    · simp [ackMatch, getUpdate, getMatch_deleted hm0match]
      omega
    · intro x hx hne
      simp [ackMatch, hfresh x hx]
  have hackeq : Queue.ack n (toks 0)
      { st with msgs := (updateById m0._id
          (getUpdate n (orDefault optVisibility q.visibility) (toks 0)) st.msgs) } =
      (.ok m0._id,
        { st with msgs := (updateById m0._id
            (fun x => { getUpdate n (orDefault optVisibility q.visibility) (toks 0) x with
              deleted := some n }) st.msgs) }) := by
    rw [ack_of_find_some hfind]
    simp only [getUpdate_id]
    rw [updateById_updateById m0._id
      (getUpdate n (orDefault optVisibility q.visibility) (toks 0))
      (fun x => { x with deleted := some n }) (fun x => rfl) st.msgs]
    rfl
  exact ⟨hackeq, getAux_dead_step hsel hdead htr hackeq⟩

/-- C2: with a dead queue configured, a claim whose selected message has
post-increment `tries` exceeding `maxRetries` does not return that message:
the claim call (a) enqueues the whole post-mutation message into the dead
queue, (b) acknowledges the message in the source queue with the lease token
just set (finalizing it: `deleted = now`), and (c) recurses to claim again;
any message the whole call does return has `tries ≤ maxRetries`, hence
strictly fewer tries than the dead-lettered one. -/
theorem deadletter_claim (q dq : Queue) (fuel n : Nat) (toks : Nat → String)
    (optVisibility : Nat) (st dqSt : QueueState) (m0 : Msg)
    (hdead : q.hasDeadQueue = true)
    (hsel : selMin (st.msgs.filter (getMatch n)) = some m0)
    (htr : q.maxRetries < triesVal m0 + 1)
    (hnod : (st.msgs.map Msg._id).Nodup)
    (hfresh : ∀ x ∈ st.msgs, x.ack ≠ some (toks 0))
    (hvis : 0 < orDefault optVisibility q.visibility) :
    Queue.getAux q dq (fuel + 1) n toks none optVisibility st dqSt =
      Queue.getAux q dq fuel n (fun i => toks (i + 1)) none 0
        { st with msgs := (updateById m0._id
            (fun x => { getUpdate n (orDefault optVisibility q.visibility) (toks 0) x with
              deleted := some n }) st.msgs) }
        (dq.add n 0
          (.ofMsg ((getUpdate n (orDefault optVisibility q.visibility) (toks 0) m0).toRet))
          dqSt).2 ∧
    Queue.ack n (toks 0)
        { st with msgs := (updateById m0._id
            (getUpdate n (orDefault optVisibility q.visibility) (toks 0)) st.msgs) } =
      (.ok m0._id,
        { st with msgs := (updateById m0._id
            (fun x => { getUpdate n (orDefault optVisibility q.visibility) (toks 0) x with
              deleted := some n }) st.msgs) }) ∧
    docById m0._id
        { st with msgs := (updateById m0._id
            (fun x => { getUpdate n (orDefault optVisibility q.visibility) (toks 0) x with
              deleted := some n }) st.msgs) } =
      some { getUpdate n (orDefault optVisibility q.visibility) (toks 0) m0 with
        deleted := some n } ∧
    ((dq.add n 0
        (.ofMsg ((getUpdate n (orDefault optVisibility q.visibility) (toks 0) m0).toRet))
        dqSt).2).msgs.map Msg.payload =
      dqSt.msgs.map Msg.payload ++
        [.ofMsg ((getUpdate n (orDefault optVisibility q.visibility) (toks 0) m0).toRet)] ∧
    (∀ ret2 st3 dq3,
      Queue.getAux q dq (fuel + 1) n toks none optVisibility st dqSt =
        (.ok (some ret2), st3, dq3) →
      ret2.tries ≤ q.maxRetries ∧
      ret2.tries < ((getUpdate n (orDefault optVisibility q.visibility) (toks 0) m0).toRet).tries) := by
  obtain ⟨hA, hB⟩ :=
    dead_step_core q dq fuel n toks optVisibility st dqSt m0 hdead hsel htr hnod hfresh hvis
  refine ⟨hB, hA, ?_, ?_, ?_⟩
  · unfold docById
    refine find?_updateById hnod ((List.mem_filter.mp (selMin_mem hsel)).1) rfl ?_ ?_
    · simp [getUpdate]
    · intro x _ hne
      simp [hne]
  · simp [Queue.add]
  · intro ret2 st3 dq3 h
    have h1 := getAux_tries_le hdead (fuel + 1) n toks none optVisibility st dqSt ret2 st3 dq3 h
    refine ⟨h1, ?_⟩
    simp only [toRet_getUpdate_tries]
    omega

/-- A queue configured with a dead queue and `maxRetries = 1`. -/
def qDead : Queue := Queue.init 0 0 true 1

/-- A message already claimed once (tries = 1) whose lease expired at 2. -/
def mC2 : Msg := ⟨0, .str "p", 2, some "oldtk", some 1, some 0, none, none⟩

/-- The one-message state holding `mC2`. -/
def stC2 : QueueState := { msgs := [mC2], nextId := 1 }

/-- Witness for C2: claiming `mC2` at time 5 pushes its tries to 2 > 1 =
maxRetries, so it is dead-lettered and not returned. -/
theorem deadletter_claim_witness :
    (qDead.hasDeadQueue = true ∧
      selMin (stC2.msgs.filter (getMatch 5)) = some mC2 ∧
      qDead.maxRetries < triesVal mC2 + 1 ∧
      (stC2.msgs.map Msg._id).Nodup ∧
      (∀ x ∈ stC2.msgs, x.ack ≠ some "d0") ∧
      0 < orDefault 0 qDead.visibility) ∧
    (Queue.getAux qDead qPlain (1 + 1) 5 (fun _ => "d0") none 0 stC2 stEmpty =
      Queue.getAux qDead qPlain 1 5 (fun _ => "d0") none 0
        { stC2 with msgs := (updateById mC2._id
            (fun x => { getUpdate 5 (orDefault 0 qDead.visibility) "d0" x with
              deleted := some 5 }) stC2.msgs) }
        (qPlain.add 5 0
          (.ofMsg ((getUpdate 5 (orDefault 0 qDead.visibility) "d0" mC2).toRet))
          stEmpty).2 ∧
    Queue.ack 5 "d0"
        { stC2 with msgs := (updateById mC2._id
            (getUpdate 5 (orDefault 0 qDead.visibility) "d0") stC2.msgs) } =
      (.ok mC2._id,
        { stC2 with msgs := (updateById mC2._id
            (fun x => { getUpdate 5 (orDefault 0 qDead.visibility) "d0" x with
              deleted := some 5 }) stC2.msgs) }) ∧
    docById mC2._id
        { stC2 with msgs := (updateById mC2._id
            (fun x => { getUpdate 5 (orDefault 0 qDead.visibility) "d0" x with
              deleted := some 5 }) stC2.msgs) } =
      some { getUpdate 5 (orDefault 0 qDead.visibility) "d0" mC2 with
        deleted := some 5 } ∧
    ((qPlain.add 5 0
        (.ofMsg ((getUpdate 5 (orDefault 0 qDead.visibility) "d0" mC2).toRet))
        stEmpty).2).msgs.map Msg.payload =
      stEmpty.msgs.map Msg.payload ++
        [.ofMsg ((getUpdate 5 (orDefault 0 qDead.visibility) "d0" mC2).toRet)] ∧
    (∀ ret2 st3 dq3,
      Queue.getAux qDead qPlain (1 + 1) 5 (fun _ => "d0") none 0 stC2 stEmpty =
        (.ok (some ret2), st3, dq3) →
      ret2.tries ≤ qDead.maxRetries ∧
      ret2.tries < ((getUpdate 5 (orDefault 0 qDead.visibility) "d0" mC2).toRet).tries)) :=
  ⟨⟨by decide, rfl, by decide, by decide, by decide, by decide⟩,
    deadletter_claim qDead qPlain 1 5 (fun _ => "d0") 0 stC2 stEmpty mC2
      (by decide) rfl (by decide) (by decide) (by decide) (by decide)⟩

/-- C10: the document the dead-letter branch enqueues into the dead queue
carries the *entire* returned message object as its payload — including the
source message's identifier, the lease (ack) token just set, the incremented
tries count, and the original payload — not the original payload alone; so
any later claim of that dead-queue document returns a message whose payload
wraps the whole source message. -/
theorem deadletter_payload (q dq : Queue) (fuel n : Nat) (toks : Nat → String)
    (optVisibility : Nat) (st dqSt : QueueState) (m0 : Msg)
    (hdead : q.hasDeadQueue = true)
    (hsel : selMin (st.msgs.filter (getMatch n)) = some m0)
    (htr : q.maxRetries < triesVal m0 + 1)
    (hnod : (st.msgs.map Msg._id).Nodup)
    (hfresh : ∀ x ∈ st.msgs, x.ack ≠ some (toks 0))
    (hvis : 0 < orDefault optVisibility q.visibility) :
    Queue.getAux q dq (fuel + 1) n toks none optVisibility st dqSt =
      Queue.getAux q dq fuel n (fun i => toks (i + 1)) none 0
        { st with msgs := (updateById m0._id
            (fun x => { getUpdate n (orDefault optVisibility q.visibility) (toks 0) x with
              deleted := some n }) st.msgs) }
        (dq.add n 0
          (.ofMsg ((getUpdate n (orDefault optVisibility q.visibility) (toks 0) m0).toRet))
          dqSt).2 ∧
    ((dq.add n 0
        (.ofMsg ((getUpdate n (orDefault optVisibility q.visibility) (toks 0) m0).toRet))
        dqSt).2).msgs =
      dqSt.msgs ++ [⟨dqSt.nextId,
        .ofMsg ((getUpdate n (orDefault optVisibility q.visibility) (toks 0) m0).toRet),
        (if dq.delay ≠ 0 then n + dq.delay else n), none, none, none, none, none⟩] ∧
    ((getUpdate n (orDefault optVisibility q.visibility) (toks 0) m0).toRet).id = m0._id ∧
    ((getUpdate n (orDefault optVisibility q.visibility) (toks 0) m0).toRet).ack = toks 0 ∧
    ((getUpdate n (orDefault optVisibility q.visibility) (toks 0) m0).toRet).tries =
      triesVal m0 + 1 ∧
    ((getUpdate n (orDefault optVisibility q.visibility) (toks 0) m0).toRet).payload =
      m0.payload ∧
    (∀ n2 vis2 tok2,
      ((getUpdate n2 vis2 tok2 (⟨dqSt.nextId,
          .ofMsg ((getUpdate n (orDefault optVisibility q.visibility) (toks 0) m0).toRet),
          (if dq.delay ≠ 0 then n + dq.delay else n), none, none, none, none, none⟩ : Msg)).toRet).payload =
        .ofMsg ((getUpdate n (orDefault optVisibility q.visibility) (toks 0) m0).toRet)) :=
  ⟨(dead_step_core q dq fuel n toks optVisibility st dqSt m0
      hdead hsel htr hnod hfresh hvis).2,
    rfl, rfl, rfl, rfl, rfl, fun _ _ _ => rfl⟩

/-- Witness for C10: the concrete dead-letter scenario of `stC2` at time 5. -/
theorem deadletter_payload_witness :
    (qDead.hasDeadQueue = true ∧
      selMin (stC2.msgs.filter (getMatch 5)) = some mC2 ∧
      qDead.maxRetries < triesVal mC2 + 1 ∧
      (stC2.msgs.map Msg._id).Nodup ∧
      (∀ x ∈ stC2.msgs, x.ack ≠ some "dl0") ∧
      0 < orDefault 0 qDead.visibility) ∧
    (Queue.getAux qDead qPlain (1 + 1) 5 (fun _ => "dl0") none 0 stC2 stEmpty =
      Queue.getAux qDead qPlain 1 5 (fun _ => "dl0") none 0
        { stC2 with msgs := (updateById mC2._id
            (fun x => { getUpdate 5 (orDefault 0 qDead.visibility) "dl0" x with
              deleted := some 5 }) stC2.msgs) }
        (qPlain.add 5 0
          (.ofMsg ((getUpdate 5 (orDefault 0 qDead.visibility) "dl0" mC2).toRet))
          stEmpty).2 ∧
    ((qPlain.add 5 0
        (.ofMsg ((getUpdate 5 (orDefault 0 qDead.visibility) "dl0" mC2).toRet))
        stEmpty).2).msgs =
      stEmpty.msgs ++ [⟨stEmpty.nextId,
        .ofMsg ((getUpdate 5 (orDefault 0 qDead.visibility) "dl0" mC2).toRet),
        (if qPlain.delay ≠ 0 then 5 + qPlain.delay else 5), none, none, none, none, none⟩] ∧
    ((getUpdate 5 (orDefault 0 qDead.visibility) "dl0" mC2).toRet).id = mC2._id ∧
    ((getUpdate 5 (orDefault 0 qDead.visibility) "dl0" mC2).toRet).ack = "dl0" ∧
    ((getUpdate 5 (orDefault 0 qDead.visibility) "dl0" mC2).toRet).tries =
      triesVal mC2 + 1 ∧
    ((getUpdate 5 (orDefault 0 qDead.visibility) "dl0" mC2).toRet).payload =
      mC2.payload ∧
    (∀ n2 vis2 tok2,
      ((getUpdate n2 vis2 tok2 (⟨stEmpty.nextId,
          .ofMsg ((getUpdate 5 (orDefault 0 qDead.visibility) "dl0" mC2).toRet),
          (if qPlain.delay ≠ 0 then 5 + qPlain.delay else 5), none, none, none, none, none⟩ : Msg)).toRet).payload =
        .ofMsg ((getUpdate 5 (orDefault 0 qDead.visibility) "dl0" mC2).toRet))) :=
  ⟨⟨by decide, rfl, by decide, by decide, by decide, by decide⟩,
    deadletter_payload qDead qPlain 1 5 (fun _ => "dl0") 0 stC2 stEmpty mC2
      (by decide) rfl (by decide) (by decide) (by decide) (by decide)⟩

/-- C9: a freshly enqueued document stores no `tries` field, so its counter
reads 0 (the store's `$inc` treats absent as 0); a successful claim raises
the collection's total tries by exactly one (the claimed document's counter,
`+1`, others untouched); `ack` and `ping` never change any `tries`; and no
`get` call ever decreases any document's counter — so `tries` starts at 0
and is monotonically non-decreasing, bumped once per successful claim. -/
theorem tries_accounting (q dq : Queue) (n d fuel : Nat) (p : Payload)
    (toks : Nat → String) (user : Option String) (optVisibility : Nat)
    (st dqSt : QueueState) (m0 : Msg)
    (hsel : selMin (st.msgs.filter (getMatch n)) = some m0) :
    (((q.add n d p st).2).msgs.map Msg.tries = st.msgs.map Msg.tries ++ [none]) ∧
    (((q.add n d p st).2).msgs.map triesVal = st.msgs.map triesVal ++ [0]) ∧
    (q.hasDeadQueue = false →
      ((((Queue.get q dq n toks none optVisibility st dqSt).2.1).msgs.map triesVal).sum =
        (st.msgs.map triesVal).sum + 1)) ∧
    (((Queue.ack n (toks 0) st).2).msgs.map Msg.tries = st.msgs.map Msg.tries) ∧
    (((Queue.ping q n (toks 0) optVisibility st).2).msgs.map Msg.tries =
      st.msgs.map Msg.tries) ∧
    List.Forall₂ (· ≤ ·) (st.msgs.map triesVal)
      (((Queue.getAux q dq fuel n toks user optVisibility st dqSt).2.1).msgs.map triesVal) := by
  have hm0mem : m0 ∈ st.msgs := (List.mem_filter.mp (selMin_mem hsel)).1
  refine ⟨by simp [Queue.add], by simp [Queue.add, triesVal], ?_, ?_, ?_, ?_⟩
  · intro hdq
    have hnd : (q.hasDeadQueue && decide (q.maxRetries < triesVal m0 + 1)) = false := by
      simp [hdq]
    unfold Queue.get
    rw [getAux_deliver hsel hnd]
    exact @sum_triesVal_updateById m0._id
      (getUpdate n (orDefault optVisibility q.visibility) (toks 0))
      (fun x => rfl) st.msgs ⟨m0, hm0mem, rfl⟩
  · exact ack_map_tries n (toks 0) st
  · exact ping_map_tries q n (toks 0) optVisibility st
  · exact getAux_tries_mono q dq fuel n toks user optVisibility st dqSt

/-- Witness for C9 at the concrete backlog `stC1`, claiming at time 10. -/
theorem tries_accounting_witness :
    (selMin (stC1.msgs.filter (getMatch 10)) =
      some ⟨2, .str "a", 3, none, none, none, none, none⟩) ∧
    ((((qPlain.add 10 0 (.str "x") stC1).2).msgs.map Msg.tries =
        stC1.msgs.map Msg.tries ++ [none]) ∧
      (((qPlain.add 10 0 (.str "x") stC1).2).msgs.map triesVal =
        stC1.msgs.map triesVal ++ [0]) ∧
      (qPlain.hasDeadQueue = false →
        ((((Queue.get qPlain qPlain 10 (fun _ => "w9") none 0 stC1 stEmpty).2.1).msgs.map
            triesVal).sum =
          (stC1.msgs.map triesVal).sum + 1)) ∧
      (((Queue.ack 10 "w9" stC1).2).msgs.map Msg.tries = stC1.msgs.map Msg.tries) ∧
      (((Queue.ping qPlain 10 "w9" 0 stC1).2).msgs.map Msg.tries =
        stC1.msgs.map Msg.tries) ∧
      List.Forall₂ (· ≤ ·) (stC1.msgs.map triesVal)
        (((Queue.getAux qPlain qPlain 2 10 (fun _ => "w9") none 0 stC1 stEmpty).2.1).msgs.map
          triesVal)) :=
  ⟨rfl,
    tries_accounting qPlain qPlain 10 0 2 (.str "x") (fun _ => "w9") none 0 stC1 stEmpty
      ⟨2, .str "a", 3, none, none, none, none, none⟩ rfl⟩
